import Mathlib

/-!
# Verification of `parse-sizes` (albell/parse-sizes)

Shallow embedding of `src/parse-sizes.js`.  The file contains two revisions of
the parser, separated by a document marker:

* `V1` (lines 28-214): the component-value tokenizer version
  (`parseComponentValues`, forward scan with comment handling).
* `V2` (lines 242-421): the backward-scan version
  (`String.split(",")` + `getLastComponentValue`).

Strings are modelled as `List Char` (JS strings are indexed sequences of
UTF-16 units; every input considered here is plain text, for which the two
views agree).  JS regular-expression `.test` calls with `^...$` anchors are
modelled by executable matchers over `List Char` that decide membership in the
regex's language; `parseFloat(s) >= 0` is modelled on the regex-matching
inputs on which the source evaluates it (see `floatNonNeg`).
-/

/-- The five whitespace characters recognised by `isSpace` in both versions
(space, horizontal tab, new line, form feed, carriage return). -/
def isSpace (c : Char) : Bool :=
  c = ' ' || c = '\u0009' || c = '\u000A' || c = '\u000C' || c = '\u000D'

/-- The fourteen allowed CSS length units, lower-cased, exactly as listed in
`regexCssLengthWithUnits` (both versions use the identical regex). -/
def unitsList : List (List Char) :=
  ["ch", "cm", "em", "ex", "in", "mm", "pc", "pt", "px", "rem",
   "vh", "vmin", "vmax", "vw"].map String.data

/-- ASCII lower-casing of a string, modelling the `/i` regex flag (JS
non-unicode case-insensitive matching canonicalises ASCII letters only, as
does `Char.toLower`). -/
def lowerAll (l : List Char) : List Char := l.map Char.toLower

/-- The exponent markers `[eE]` of the length regex. -/
def isEe (c : Char) : Bool := c = 'e' || c = 'E'

/-- Split a string at its first `e`/`E`, if any (the regex's mantissa and
exponent-digit character classes contain no `e`/`E`, so a match can only place
the exponent marker at the first occurrence). -/
def splitAtFirstEe : List Char → Option (List Char × List Char)
  | [] => none
  | c :: rest =>
    if isEe c then some ([], rest)
    else (splitAtFirstEe rest).map (fun p => (c :: p.1, p.2))

/-- Split a string at its first `.`, if any. -/
def splitAtFirstDot : List Char → Option (List Char × List Char)
  | [] => none
  | c :: rest =>
    if c = '.' then some ([], rest)
    else (splitAtFirstDot rest).map (fun p => (c :: p.1, p.2))

/-- `[0-9]+` : a non-empty run of decimal digits. -/
def digitsNonempty (l : List Char) : Bool :=
  !l.isEmpty && l.all (fun c => c.isDigit)

/-- `[+-]?[0-9]+` : an optional sign followed by a non-empty digit run (used
both as the integer mantissa alternative and as the exponent body). -/
def signedIntOK (l : List Char) : Bool :=
  match l with
  | [] => false
  | c :: r =>
    if c = '+' || c = '-' then digitsNonempty r else digitsNonempty (c :: r)

/-- `[0-9]*\.[0-9]+` : the (unsigned) fractional mantissa alternative. -/
def fracOK (l : List Char) : Bool :=
  match splitAtFirstDot l with
  | none => false
  | some (a, b) => a.all (fun c => c.isDigit) && digitsNonempty b

/-- The mantissa `(?:[+-]?[0-9]+|[0-9]*\.[0-9]+)` of `regexCssLengthWithUnits`:
note that a sign is only permitted in the integer alternative. -/
def mantissaOK (l : List Char) : Bool := signedIntOK l || fracOK l

/-- The numeric part `(?:[+-]?[0-9]+|[0-9]*\.[0-9]+)(?:[eE][+-]?[0-9]+)?`.
Neither the mantissa nor the exponent body may contain `e`/`E`, so membership
is decided by splitting at the first `e`/`E`. -/
def numberOK (l : List Char) : Bool :=
  match splitAtFirstEe l with
  | none => mantissaOK l
  | some (m, x) => mantissaOK m && signedIntOK x

/-- `regexCssLengthWithUnits.test(s)` for
`/^(?:[+-]?[0-9]+|[0-9]*\.[0-9]+)(?:[eE][+-]?[0-9]+)?(?:ch|cm|em|ex|in|mm|pc|pt|px|rem|vh|vmin|vmax|vw)$/i`
(the regex is identical in both versions): some allowed unit is a
case-insensitive suffix and the rest is a numeric literal. -/
def regexCssLengthWithUnits (s : List Char) : Bool :=
  unitsList.any (fun u =>
    decide (u.length ≤ s.length) &&
    ((lowerAll s).drop (s.length - u.length) == u) &&
    numberOK (s.take (s.length - u.length)))

/-- Model of `parseFloat(s) >= 0` on the inputs where the source evaluates it,
namely strings already matching `regexCssLengthWithUnits`.  Such a string is
negative exactly when it starts with `-` and its digit run contains a nonzero
digit (a signed mantissa is forced to be an integer by the regex).  This is
exact except for IEEE-754 underflow (magnitudes below the smallest positive
double round to `-0`, which JS compares `>= 0`); no input around which a claim
turns lies in that region. -/
def floatNonNeg (s : List Char) : Bool :=
  match s with
  | [] => true
  | c :: r =>
    if c = '-' then
      !((r.takeWhile (fun d => d.isDigit)).any (fun d => d != '0'))
    else true

/-- The character class of the V1 calc regex body,
`[0-9a-z \.\+\-\*\/\(\)]` under `/i` (ASCII letters of either case). -/
def calcBodyCharV1 (c : Char) : Bool :=
  c.isDigit || ('a' ≤ c && c ≤ 'z') || ('A' ≤ c && c ≤ 'Z') ||
  c = ' ' || c = '.' || c = '+' || c = '-' || c = '*' || c = '/' ||
  c = '(' || c = ')'

/-- The character class of the V2 calc regex body,
`[0-9a-z \+\-\*\/\(\)]` under `/i` — the same class WITHOUT `.`. -/
def calcBodyCharV2 (c : Char) : Bool :=
  c.isDigit || ('a' ≤ c && c ≤ 'z') || ('A' ≤ c && c ≤ 'Z') ||
  c = ' ' || c = '+' || c = '-' || c = '*' || c = '/' ||
  c = '(' || c = ')'

/-- `/^calc\((?:BODY+)\)$/i` for a given body character class: the literal
case-insensitive `calc(`, a non-empty body run, then a final `)` (anchored, so
the closing paren is necessarily the last character). -/
def calcRegexTest (bodyChar : Char → Bool) (s : List Char) : Bool :=
  (lowerAll (s.take 5) == "calc(".data) &&
  (let r := s.drop 5
   decide (2 ≤ r.length) && (r.getLast? == some ')') && r.dropLast.all bodyChar)

namespace V1

/-- `regexCssCalc.test(s)` of the first version (line 42), body class with
`.` allowed. -/
def regexCssCalc (s : List Char) : Bool := calcRegexTest calcBodyCharV1 s

/-- `isValidNonNegativeSourceSizeValue` of the first version (lines 138-146):
the length regex together with `parseFloat(s) >= 0`, or the calc regex, or one
of the unitless zeros `"0"`, `"-0"`, `"+0"`. -/
def isValidNonNegativeSourceSizeValue (s : List Char) : Bool :=
  (regexCssLengthWithUnits s && floatNonNeg s) ||
  regexCssCalc s ||
  s == "0".data || s == "-0".data || s == "+0".data

/-- `pushComponent` (lines 71-76): append the current component to the
component array when non-empty. -/
def pushComp (comp : List Char) (arr : List (List Char)) : List (List Char) :=
  if comp = [] then arr else arr ++ [comp]

/-- `pushComponentArray` (lines 78-83): append the component array to the list
when its first element is truthy.  `componentArray[0]` is truthy exactly when
the array is non-empty, because `pushComponent` never pushes an empty string;
the branch also resets `componentArray` only in that case, which coincides
with resetting it unconditionally since otherwise it is already `[]`. -/
def pushArr (arr : List (List Char)) (lst : List (List (List Char))) :
    List (List (List Char)) :=
  if arr = [] then lst else lst ++ [arr]

/-- The scanning loop of `parseComponentValues` (lines 86-135), one step per
character position.  `prev` is the character at `pos - 1` of the original
string (`none` at position 0); the two-character steps (`/*`, `*/`) leave as
`prev` the second character skipped, exactly as `pos += 2` does.  The JS loop
guards the two-character steps with `str[pos + 1] === ...`, which fails at the
last position (`undefined`); here this is expressed by matching two leading
characters, so that a lone `*` inside a comment is skipped and a lone `/`
outside one falls through to the default append, as in the source. -/
def pcvLoop (input : List Char) (prev : Option Char) (comp : List Char)
    (arr : List (List Char)) (lst : List (List (List Char)))
    (depth : Int) (inC : Bool) : List (List (List Char)) :=
  match inC, input with
  | _, [] => pushArr (pushComp comp arr) lst
  | true, '*' :: '/' :: rest =>
    pcvLoop rest (some '/') [] (pushComp comp arr) lst depth false
  | true, c :: rest =>
    pcvLoop rest (some c) comp arr lst depth true
  | false, '/' :: '*' :: rest =>
    pcvLoop rest (some '*') comp arr lst depth true
  | false, c :: rest =>
    if isSpace c then
      if (match prev with | some p => isSpace p | none => false) || comp.isEmpty then
        pcvLoop rest (some c) comp arr lst depth false
      else if depth = 0 then
        pcvLoop rest (some c) [] (pushComp comp arr) lst depth false
      else
        pcvLoop rest (some c) (comp ++ [' ']) arr lst depth false
    else if c = '(' then
      pcvLoop rest (some c) (comp ++ [c]) arr lst (depth + 1) false
    else if c = ')' then
      pcvLoop rest (some c) (comp ++ [c]) arr lst (depth - 1) false
    else if c = ',' then
      pcvLoop rest (some c) [] [] (pushArr (pushComp comp arr) lst) depth false
    else
      pcvLoop rest (some c) (comp ++ [c]) arr lst depth false

/-- `parseComponentValues` (lines 62-136): run the scan from the start of the
string with empty buffers, paren depth 0, outside any comment. -/
def parseComponentValues (s : String) : List (List (List Char)) :=
  pcvLoop s.data none [] [] [] 0 false

/-- `Array.prototype.join(" ")` on a token list. -/
def joinSpace (ts : List (List Char)) : String :=
  String.mk (List.intercalate [' '] ts)

/-- The selection loop of `parseSizes` (lines 158-213) over the tokenized
group list; `e` models `(s) => window.matchMedia(s).matches`.  An empty group
yields `unparsedSize[length-1] === undefined`, which fails
`isValidNonNegativeSourceSizeValue` (every regex coerces `undefined` to the
string `"undefined"`); the invalid branch logs and continues (the host
`window.console` is assumed present, as in any browser). -/
def select (gs : List (List (List Char))) (e : String → Bool) : String :=
  match gs with
  | [] => "100vw"
  | g :: rest =>
    match g.getLast? with
    | none => select rest e
    | some last =>
      if isValidNonNegativeSourceSizeValue last then
        if g.dropLast = [] then String.mk last
        else if e (joinSpace g.dropLast) then String.mk last
        else select rest e
      else select rest e

/-- `parseSizes` of the first version, on an actual string argument. -/
def parseSizes (s : String) (e : String → Bool) : String :=
  select (parseComponentValues s) e

/-- `parseSizes` including the undefined-argument behaviour: when `strValue`
is `undefined`, `parseComponentValues` evaluates `str[pos]` on `undefined`,
which throws a `TypeError`; on string arguments every operation performed is
total (character indexing out of range yields `undefined`, which each branch
handles), so no exception arises. -/
def parseSizesChecked (s : Option String) (e : String → Bool) :
    Except String String :=
  match s with
  | none => Except.error "TypeError: Cannot read properties of undefined"
  | some v => Except.ok (parseSizes v e)

end V1

namespace V2

/-- `regexCssCalc.test(s)` of the second version (line 256): the body class
has no `.`. -/
def regexCssCalc (s : List Char) : Bool := calcRegexTest calcBodyCharV2 s

/-- `isValidNonNegativeSourceSizeValue` of the second version (lines 340-351);
same Boolean function shape as V1 but with the dot-free calc regex. -/
def isValidNonNegativeSourceSizeValue (s : List Char) : Bool :=
  (regexCssLengthWithUnits s && floatNonNeg s) ||
  regexCssCalc s ||
  s == "0".data || s == "-0".data || s == "+0".data

/-- `String.prototype.split(",")` (line 358): split at every comma, keeping
empty pieces; `"".split(",")` is `[""]`. -/
def splitComma : List Char → List (List Char)
  | [] => [[]]
  | c :: rest =>
    if c = ',' then [] :: splitComma rest
    else
      match splitComma rest with
      | g :: gs => (c :: g) :: gs
      | [] => [[c]]

/-- `trimTrailingSpace` (lines 282-289): remove the maximal run of `isSpace`
characters from the end. -/
def trimTrailingSpace (l : List Char) : List Char :=
  (l.reverse.dropWhile (fun c => isSpace c)).reverse

/-- `trimLeadingSpace` (lines 291-299): remove the maximal run of `isSpace`
characters from the start. -/
def trimLeadingSpace (l : List Char) : List Char :=
  l.dropWhile (fun c => isSpace c)

/-- The backward scanning loop of `getLastComponentValue` (lines 311-337).
The first argument is the reversed remaining string (so its head is the
character at `pos`); `nxt` is the character at `pos + 1` (`none` initially,
i.e. at `pos = str.length - 1`). -/
def glcvLoop (rev : List Char) (nxt : Option Char) (comp : List Char)
    (depth : Int) : List Char :=
  match rev with
  | [] => comp
  | c :: rest =>
    if isSpace c then
      if (match nxt with | some n => isSpace n | none => true) then
        glcvLoop rest (some c) comp depth
      else if depth = 0 && !comp.isEmpty then comp
      else glcvLoop rest (some c) (' ' :: comp) depth
    else if c = ')' then glcvLoop rest (some c) (')' :: comp) (depth + 1)
    else if c = '(' then glcvLoop rest (some c) ('(' :: comp) (depth - 1)
    else glcvLoop rest (some c) (c :: comp) depth

/-- `getLastComponentValue` (lines 304-338): scan backwards from the end. -/
def getLastComponentValue (l : List Char) : List Char :=
  glcvLoop l.reverse none [] 0

/-- The selection loop of `parseSizes` (lines 362-416) over the comma-split
pieces: trim, extract the last component value, validate, strip it by length
(`substring(0, length - size.length)`, clamped at 0), and either return or
consult the evaluator on the trimmed remainder. -/
def select (gs : List (List Char)) (e : String → Bool) : String :=
  match gs with
  | [] => "100vw"
  | g :: rest =>
    let u := trimTrailingSpace g
    if u = [] then select rest e
    else
      let last := getLastComponentValue u
      if isValidNonNegativeSourceSizeValue last then
        let rem := trimTrailingSpace (u.take (u.length - last.length))
        if rem = [] then String.mk last
        else if e (String.mk (trimLeadingSpace (trimTrailingSpace rem))) then
          String.mk last
        else select rest e
      else select rest e

/-- `parseSizes` of the second version, on an actual string argument. -/
def parseSizes (s : String) (e : String → Bool) : String :=
  select (splitComma s.data) e

/-- `parseSizes` including the undefined-argument behaviour: when `strValue`
is `undefined`, `strValue.split(",")` (line 358) throws a `TypeError`; on
string arguments every operation performed is total. -/
def parseSizesChecked (s : Option String) (e : String → Bool) :
    Except String String :=
  match s with
  | none => Except.error "TypeError: Cannot read properties of undefined"
  | some v => Except.ok (parseSizes v e)

end V2

/-! ## Spec-described token shape (for claim C4)

The spec describes the accepted numeric literal as "optional leading `+`/`-`,
digits with optional fractional part, optional exponent"; in the source regex
the sign is only permitted in the integer alternative.  The following
definitions transcribe the SPEC's wording, to be compared with
`regexCssLengthWithUnits` above. -/

/-- Modelled from the spec: a mantissa with an optional leading sign over
digits with an optional fractional part (the source regex, by contrast,
forbids a sign on the fractional alternative). -/
def specMantissaOK (l : List Char) : Bool :=
  match l with
  | [] => false
  | c :: r =>
    if c = '+' || c = '-' then digitsNonempty r || fracOK r
    else digitsNonempty (c :: r) || fracOK (c :: r)

/-- Modelled from the spec: the described numeric literal, a spec-shaped
mantissa followed by an optional exponent. -/
def specNumberOK (l : List Char) : Bool :=
  match splitAtFirstEe l with
  | none => specMantissaOK l
  | some (m, x) => specMantissaOK m && signedIntOK x

/-- Modelled from the spec: the described token shape, a spec-shaped numeric
literal immediately followed by one of the 14 case-insensitive units. -/
def specLengthToken (s : List Char) : Bool :=
  unitsList.any (fun u =>
    decide (u.length ≤ s.length) &&
    ((lowerAll s).drop (s.length - u.length) == u) &&
    specNumberOK (s.take (s.length - u.length)))

/-- Modelled from the spec: "whose parsed numeric value is >= 0" for a
spec-shaped token - the value is negative exactly when the token starts with
`-` and the mantissa (digit/dot run before any exponent or unit) contains a
nonzero digit. -/
def specValueNonNeg (s : List Char) : Bool :=
  match s with
  | [] => true
  | c :: r =>
    if c = '-' then
      !((r.takeWhile (fun d => d.isDigit || d = '.')).any
          (fun d => d.isDigit && d != '0'))
    else true

/-- A string containing no `*/` pair at adjacent positions, i.e. a possible
comment interior (used to state the comment-handling properties of the V1
tokenizer). -/
def noCommentClose : List Char → Bool
  | [] => true
  | c :: r => !(c = '*' && r.head? == some '/') && noCommentClose r

/-- A well-formed tokenizer token: non-empty with a non-whitespace first
character (the V1 tokenizer never starts a component with a space). -/
def goodTokenB : List Char → Bool
  | [] => false
  | c :: _ => !isSpace c

/-! ## Claims -/

/-- Claim C2 counterexample: an absent (undefined) input does NOT behave like
the empty string.  Both implementations throw a TypeError on it (V1 indexes
`str[pos]` on `undefined`, V2 calls `undefined.split(",")`), whereas the empty
string yields `"100vw"`. -/
theorem C2_counterexample :
    V1.parseSizesChecked none (fun _ => false)
        = Except.error "TypeError: Cannot read properties of undefined" ∧
    V1.parseSizesChecked (some "") (fun _ => false) = Except.ok "100vw" ∧
    V2.parseSizesChecked none (fun _ => false)
        = Except.error "TypeError: Cannot read properties of undefined" ∧
    V2.parseSizesChecked (some "") (fun _ => false) = Except.ok "100vw" ∧
    (Except.error "TypeError: Cannot read properties of undefined"
        ≠ (Except.ok "100vw" : Except String String)) :=
  ⟨rfl, rfl, rfl, rfl, fun h => Except.noConfusion h⟩

/-- Claim C2 (amended): an absent/undefined input is not normalized to the
empty string - both implementations throw a TypeError on it; every string
input is processed without throwing (the embedding of the string path is a
total function), and the empty string yields `"100vw"`. -/
theorem C2_never_throws_on_strings :
    (∀ (s : String) (e : String → Bool),
        V1.parseSizesChecked (some s) e = Except.ok (V1.parseSizes s e) ∧
        V2.parseSizesChecked (some s) e = Except.ok (V2.parseSizes s e)) ∧
    (∀ e, V1.parseSizes "" e = "100vw" ∧ V2.parseSizes "" e = "100vw") ∧
    (∀ e, V1.parseSizesChecked none e
            = Except.error "TypeError: Cannot read properties of undefined" ∧
          V2.parseSizesChecked none e
            = Except.error "TypeError: Cannot read properties of undefined") :=
  ⟨fun _ _ => ⟨rfl, rfl⟩, fun _ => ⟨rfl, rfl⟩, fun _ => ⟨rfl, rfl⟩⟩

/-- Claim C4 counterexample: `"+0.5px"` and `"+0.11e+01px"` have the shape the
claim describes (sign, digits with fractional part, optional exponent, unit)
and non-negative value, yet `isValidNonNegativeSourceSizeValue` rejects them
in both versions: the source regex only allows a sign on an integer mantissa
(the repository's own test expects `'+0.11e+01px'` to yield `'100vw'`). -/
theorem C4_counterexample :
    specLengthToken "+0.5px".data = true ∧
    specValueNonNeg "+0.5px".data = true ∧
    specLengthToken "+0.11e+01px".data = true ∧
    specValueNonNeg "+0.11e+01px".data = true ∧
    V1.isValidNonNegativeSourceSizeValue "+0.5px".data = false ∧
    V2.isValidNonNegativeSourceSizeValue "+0.5px".data = false ∧
    V1.isValidNonNegativeSourceSizeValue "+0.11e+01px".data = false ∧
    V2.isValidNonNegativeSourceSizeValue "+0.11e+01px".data = false := by
  decide

/-- Claim C6 counterexample: the two parseSizes implementations disagree on
`"/* */1px/* */"` - the forward tokenizer elides comments and returns
`"1px"`, the backward scanner has no comment handling and returns
`"100vw"`. -/
theorem C6_counterexample :
    V1.parseSizes "/* */1px/* */" (fun _ => false) = "1px" ∧
    V2.parseSizes "/* */1px/* */" (fun _ => false) = "100vw" ∧
    V1.parseSizes "/* */1px/* */" (fun _ => false)
      ≠ V2.parseSizes "/* */1px/* */" (fun _ => false) := by
  decide

/-- Claim C6 (amended): the two implementations are not equivalent.  They
agree on simple inputs such as `""`, `"1px"`, `"50vh"`, `"calc(1px)"` under
every evaluator, but differ on inputs containing comments and on calc tokens
containing `.`. -/
theorem C6_amended_partial_agreement :
    (∀ e, V1.parseSizes "" e = V2.parseSizes "" e) ∧
    (∀ e, V1.parseSizes "1px" e = V2.parseSizes "1px" e) ∧
    (∀ e, V1.parseSizes "50vh" e = V2.parseSizes "50vh" e) ∧
    (∀ e, V1.parseSizes "calc(1px)" e = V2.parseSizes "calc(1px)" e) ∧
    V1.parseSizes "/* */1px/* */" (fun _ => true)
      ≠ V2.parseSizes "/* */1px/* */" (fun _ => true) ∧
    V1.parseSizes "calc(200px * 1.4)" (fun _ => true)
      ≠ V2.parseSizes "calc(200px * 1.4)" (fun _ => true) :=
  ⟨fun _ => rfl, fun _ => rfl, fun _ => rfl, fun _ => rfl,
   by decide, by decide⟩

/-- Claim C7 (code bug in the V2 calc regex): the V1 regex accepts exactly the
described loose calc form, including `.` in the body class, but the V2 copy
omits `\.` from its character class, so `"calc(200px * 1.4)"` - which the
test suite expects to be returned verbatim - is rejected by V2 and yields
`"100vw"`. -/
theorem C7_calc_regex_divergence :
    V1.regexCssCalc "calc(200px * 1.4)".data = true ∧
    V1.regexCssCalc "calc((5px + 5px)*2)".data = true ∧
    V1.regexCssCalc "calc(1px".data = false ∧
    V2.regexCssCalc "calc((5px + 5px)*2)".data = true ∧
    V2.regexCssCalc "calc(1px".data = false ∧
    V2.regexCssCalc "calc(200px * 1.4)".data = false ∧
    V1.parseSizes "calc(200px * 1.4)" (fun _ => false) = "calc(200px * 1.4)" ∧
    V2.parseSizes "calc(200px * 1.4)" (fun _ => false) = "100vw" := by
  decide

/-- Claim C3: a group whose last token fails
`isValidNonNegativeSourceSizeValue` is skipped entirely - selection over the
remaining groups is exactly as if the group were absent (both versions; the
only other effect is a console parse-error log). -/
theorem C3_invalid_group_skipped :
    (∀ (g : List (List Char)) (gs : List (List (List Char)))
        (e : String → Bool) (t : List Char),
        g.getLast? = some t →
        V1.isValidNonNegativeSourceSizeValue t = false →
        V1.select (g :: gs) e = V1.select gs e) ∧
    (∀ (g : List Char) (gs : List (List Char)) (e : String → Bool),
        V2.isValidNonNegativeSourceSizeValue
            (V2.getLastComponentValue (V2.trimTrailingSpace g)) = false →
        V2.select (g :: gs) e = V2.select gs e) := by
  constructor
  · intro g gs e t ht hv
    simp [V1.select, ht, hv]
  · intro g gs e hv
    by_cases h : V2.trimTrailingSpace g = []
    · simp [V2.select, h]
    · simp [V2.select, h, hv]

/-- Claim C3 witness: a concrete invalid group (`foo`) is skipped in front of
a valid one in both versions. -/
theorem C3_witness :
    ([("foo".data : List Char)].getLast? = some "foo".data) ∧
    V1.isValidNonNegativeSourceSizeValue "foo".data = false ∧
    V1.select [["foo".data], ["1px".data]] (fun _ => true)
      = V1.select [["1px".data]] (fun _ => true) ∧
    V2.isValidNonNegativeSourceSizeValue
        (V2.getLastComponentValue (V2.trimTrailingSpace "foo".data)) = false ∧
    V2.select ["foo".data, "1px".data] (fun _ => true)
      = V2.select ["1px".data] (fun _ => true) :=
  ⟨by decide, by decide,
   C3_invalid_group_skipped.1 ["foo".data] [["1px".data]] (fun _ => true)
     "foo".data (by decide) (by decide),
   by decide,
   C3_invalid_group_skipped.2 "foo".data ["1px".data] (fun _ => true)
     (by decide)⟩

/-- Claim C8: a group whose last token is a valid size and whose media-token
prefix is empty makes the selector return that size immediately, whatever
groups follow (when it is not the last group only a parse-error log is
added). -/
theorem C8_unconditional_size_returned :
    (∀ (g : List (List Char)) (gs : List (List (List Char)))
        (e : String → Bool) (t : List Char),
        g.getLast? = some t →
        g.dropLast = [] →
        V1.isValidNonNegativeSourceSizeValue t = true →
        V1.select (g :: gs) e = String.mk t) ∧
    (∀ (g : List Char) (gs : List (List Char)) (e : String → Bool),
        V2.trimTrailingSpace g ≠ [] →
        V2.isValidNonNegativeSourceSizeValue
            (V2.getLastComponentValue (V2.trimTrailingSpace g)) = true →
        V2.trimTrailingSpace ((V2.trimTrailingSpace g).take
            ((V2.trimTrailingSpace g).length
              - (V2.getLastComponentValue (V2.trimTrailingSpace g)).length))
          = [] →
        V2.select (g :: gs) e
          = String.mk (V2.getLastComponentValue (V2.trimTrailingSpace g))) := by
  constructor
  · intro g gs e t ht hd hv
    simp [V1.select, ht, hv, hd]
  · intro g gs e hne hv hrem
    simp [V2.select, hne, hv, hrem]

/-- Claim C8 witness: a concrete one-token group returns its size even when
followed by another group, in both versions. -/
theorem C8_witness :
    ([("1px".data : List Char)].getLast? = some "1px".data) ∧
    ([("1px".data : List Char)].dropLast = []) ∧
    V1.isValidNonNegativeSourceSizeValue "1px".data = true ∧
    V1.select [["1px".data], ["2px".data]] (fun _ => false)
      = String.mk "1px".data ∧
    V2.trimTrailingSpace "1px".data ≠ [] ∧
    V2.isValidNonNegativeSourceSizeValue
        (V2.getLastComponentValue (V2.trimTrailingSpace "1px".data)) = true ∧
    V2.select ["1px".data, "2px".data] (fun _ => false)
      = String.mk (V2.getLastComponentValue (V2.trimTrailingSpace "1px".data)) :=
  ⟨by decide, by decide, by decide,
   C8_unconditional_size_returned.1 ["1px".data] [["2px".data]]
     (fun _ => false) "1px".data (by decide) (by decide) (by decide),
   by decide, by decide,
   C8_unconditional_size_returned.2 "1px".data ["2px".data] (fun _ => false)
     (by decide) (by decide) (by decide)⟩

/-! ## Step lemmas for the two selection loops -/

/-- One step of the V1 selection loop: a group either yields its (valid) last
token as the result, or the loop continues as if the group were absent. -/
theorem selectV1_step (g : List (List Char)) (rest : List (List (List Char)))
    (e : String → Bool) :
    (∃ t, g.getLast? = some t ∧
        V1.isValidNonNegativeSourceSizeValue t = true ∧
        V1.select (g :: rest) e = String.mk t) ∨
    V1.select (g :: rest) e = V1.select rest e := by
  cases hlast : g.getLast? with
  | none => right; simp [V1.select, hlast]
  | some t =>
    by_cases hv : V1.isValidNonNegativeSourceSizeValue t = true
    · by_cases hd : g.dropLast = []
      · exact Or.inl ⟨t, rfl, hv, by simp [V1.select, hlast, hv, hd]⟩
      · by_cases he : e (V1.joinSpace g.dropLast) = true
        · exact Or.inl ⟨t, rfl, hv, by simp [V1.select, hlast, hv, hd, he]⟩
        · right; simp [V1.select, hlast, hv, hd, he]
    · right; simp [V1.select, hlast, hv]

/-- One step of the V2 selection loop: a group either yields its extracted
(valid) last component value as the result, or the loop continues as if the
group were absent. -/
theorem selectV2_step (g : List Char) (rest : List (List Char))
    (e : String → Bool) :
    (V2.isValidNonNegativeSourceSizeValue
        (V2.getLastComponentValue (V2.trimTrailingSpace g)) = true ∧
      V2.select (g :: rest) e
        = String.mk (V2.getLastComponentValue (V2.trimTrailingSpace g))) ∨
    V2.select (g :: rest) e = V2.select rest e := by
  by_cases hu : V2.trimTrailingSpace g = []
  · right; simp [V2.select, hu]
  · by_cases hv : V2.isValidNonNegativeSourceSizeValue
        (V2.getLastComponentValue (V2.trimTrailingSpace g)) = true
    · by_cases hrem : V2.trimTrailingSpace ((V2.trimTrailingSpace g).take
          ((V2.trimTrailingSpace g).length
            - (V2.getLastComponentValue (V2.trimTrailingSpace g)).length)) = []
      · exact Or.inl ⟨hv, by simp [V2.select, hu, hv, hrem]⟩
      · by_cases he : e (String.mk (V2.trimLeadingSpace (V2.trimTrailingSpace
            (V2.trimTrailingSpace ((V2.trimTrailingSpace g).take
              ((V2.trimTrailingSpace g).length
                - (V2.getLastComponentValue
                    (V2.trimTrailingSpace g)).length)))))) = true
        · exact Or.inl ⟨hv, by simp [V2.select, hu, hv, hrem, he]⟩
        · right; simp [V2.select, hu, hv, hrem, he]
    · right; simp [V2.select, hu, hv]

/-- The V1 selection loop over any group list returns `"100vw"` or the
verbatim valid last token of one of the groups. -/
theorem selectV1_shape (gs : List (List (List Char))) (e : String → Bool) :
    V1.select gs e = "100vw" ∨
    ∃ g, g ∈ gs ∧ ∃ t, g.getLast? = some t ∧
      V1.isValidNonNegativeSourceSizeValue t = true ∧
      V1.select gs e = String.mk t := by
  induction gs with
  | nil => exact Or.inl rfl
  | cons g rest ih =>
    rcases selectV1_step g rest e with ⟨t, ht, hv, hres⟩ | hskip
    · exact Or.inr ⟨g, List.mem_cons_self g rest, t, ht, hv, hres⟩
    · rcases ih with h | ⟨g', hg', t, ht, hv, hres⟩
      · exact Or.inl (hskip.trans h)
      · exact Or.inr ⟨g', List.mem_cons_of_mem g hg', t, ht, hv,
          hskip.trans hres⟩

/-- The V2 selection loop over any group list returns `"100vw"` or the
extracted valid last component value of one of the groups. -/
theorem selectV2_shape (gs : List (List Char)) (e : String → Bool) :
    V2.select gs e = "100vw" ∨
    ∃ g, g ∈ gs ∧
      V2.isValidNonNegativeSourceSizeValue
        (V2.getLastComponentValue (V2.trimTrailingSpace g)) = true ∧
      V2.select gs e
        = String.mk (V2.getLastComponentValue (V2.trimTrailingSpace g)) := by
  induction gs with
  | nil => exact Or.inl rfl
  | cons g rest ih =>
    rcases selectV2_step g rest e with ⟨hv, hres⟩ | hskip
    · exact Or.inr ⟨g, List.mem_cons_self g rest, hv, hres⟩
    · rcases ih with h | ⟨g', hg', hv, hres⟩
      · exact Or.inl (hskip.trans h)
      · exact Or.inr ⟨g', List.mem_cons_of_mem g hg', hv, hskip.trans hres⟩

/-- If every group's candidate last token is invalid, the V1 loop falls
through to the default.  The candidate is `getLast?.getD []`, matching
`unparsedSize[unparsedSize.length - 1]` with `undefined` modelled by the
(always invalid) empty token. -/
theorem selectV1_all_invalid (gs : List (List (List Char))) (e : String → Bool)
    (h : ∀ g ∈ gs,
      V1.isValidNonNegativeSourceSizeValue (g.getLast?.getD []) = false) :
    V1.select gs e = "100vw" := by
  induction gs with
  | nil => rfl
  | cons g rest ih =>
    have hg := h g (List.mem_cons_self g rest)
    have hstep : V1.select (g :: rest) e = V1.select rest e := by
      cases hlast : g.getLast? with
      | none => simp [V1.select, hlast]
      | some t =>
        rw [hlast] at hg
        simp only [Option.getD_some] at hg
        simp [V1.select, hlast, hg]
    exact hstep.trans (ih (fun g' hg' => h g' (List.mem_cons_of_mem g hg')))

/-- If every group's extracted last component value is invalid, the V2 loop
falls through to the default. -/
theorem selectV2_all_invalid (gs : List (List Char)) (e : String → Bool)
    (h : ∀ g ∈ gs,
      V2.isValidNonNegativeSourceSizeValue
        (V2.getLastComponentValue (V2.trimTrailingSpace g)) = false) :
    V2.select gs e = "100vw" := by
  induction gs with
  | nil => rfl
  | cons g rest ih =>
    have hg := h g (List.mem_cons_self g rest)
    have hstep : V2.select (g :: rest) e = V2.select rest e := by
      by_cases hu : V2.trimTrailingSpace g = []
      · simp [V2.select, hu]
      · simp [V2.select, hu, hg]
    exact hstep.trans (ih (fun g' hg' => h g' (List.mem_cons_of_mem g hg')))

/-- Claim C1: for every input string and every evaluator the returned value is
either the literal default `"100vw"` or a token extracted from the tokenized
input that satisfies `isValidNonNegativeSourceSizeValue` - never any other
value (both implementations; in V1 the token is the last component value of
one of the tokenizer's groups, in V2 the last component value extracted from
one of the comma-split pieces). -/
theorem C1_result_valid_token_or_default (s : String) (e : String → Bool) :
    (V1.parseSizes s e = "100vw" ∨
      ∃ g, g ∈ V1.parseComponentValues s ∧ ∃ t, g.getLast? = some t ∧
        V1.isValidNonNegativeSourceSizeValue t = true ∧
        V1.parseSizes s e = String.mk t) ∧
    (V2.parseSizes s e = "100vw" ∨
      ∃ g, g ∈ V2.splitComma s.data ∧
        V2.isValidNonNegativeSourceSizeValue
          (V2.getLastComponentValue (V2.trimTrailingSpace g)) = true ∧
        V2.parseSizes s e
          = String.mk (V2.getLastComponentValue (V2.trimTrailingSpace g))) :=
  ⟨selectV1_shape (V1.parseComponentValues s) e,
   selectV2_shape (V2.splitComma s.data) e⟩

/-- Claim C10: whenever no group carries a valid trailing length token, the
result is exactly `"100vw"`, for every evaluator; in particular on `""` and
`","` (both implementations). -/
theorem C10_default_when_no_valid_size (s : String) (e : String → Bool) :
    ((∀ g ∈ V1.parseComponentValues s,
        V1.isValidNonNegativeSourceSizeValue (g.getLast?.getD []) = false) →
      V1.parseSizes s e = "100vw") ∧
    ((∀ g ∈ V2.splitComma s.data,
        V2.isValidNonNegativeSourceSizeValue
          (V2.getLastComponentValue (V2.trimTrailingSpace g)) = false) →
      V2.parseSizes s e = "100vw") ∧
    V1.parseSizes "" e = "100vw" ∧ V1.parseSizes "," e = "100vw" ∧
    V2.parseSizes "" e = "100vw" ∧ V2.parseSizes "," e = "100vw" :=
  ⟨fun h => selectV1_all_invalid (V1.parseComponentValues s) e h,
   fun h => selectV2_all_invalid (V2.splitComma s.data) e h,
   rfl, rfl, rfl, rfl⟩

/-- Claim C10 witness: on the concrete input `"foo bar"` (no group has a valid
trailing token) both implementations return `"100vw"`. -/
theorem C10_witness :
    (∀ g ∈ V1.parseComponentValues "foo bar",
      V1.isValidNonNegativeSourceSizeValue (g.getLast?.getD []) = false) ∧
    (∀ g ∈ V2.splitComma "foo bar".data,
      V2.isValidNonNegativeSourceSizeValue
        (V2.getLastComponentValue (V2.trimTrailingSpace g)) = false) ∧
    V1.parseSizes "foo bar" (fun _ => true) = "100vw" ∧
    V2.parseSizes "foo bar" (fun _ => true) = "100vw" :=
  ⟨by decide, by decide,
   (C10_default_when_no_valid_size "foo bar" (fun _ => true)).1 (by decide),
   (C10_default_when_no_valid_size "foo bar" (fun _ => true)).2.1 (by decide)⟩

/-! ## Completeness of the length matcher (for claim C4, amended) -/

/-- A decimal digit is not an exponent marker. -/
theorem isEe_eq_false_of_isDigit {c : Char} (h : c.isDigit = true) :
    isEe c = false := by
  by_cases h1 : c = 'e'
  · subst h1; exact absurd h (by decide)
  · by_cases h2 : c = 'E'
    · subst h2; exact absurd h (by decide)
    · simp [isEe, h1, h2]

/-- A non-empty digit run contains no exponent marker. -/
theorem no_ee_of_digitsNonempty {l : List Char} (h : digitsNonempty l = true) :
    ∀ c ∈ l, isEe c = false := by
  intro c hc
  have hall := (Bool.and_eq_true _ _).mp h |>.2
  exact isEe_eq_false_of_isDigit (List.all_eq_true.mp hall c hc)

/-- An optionally signed digit run contains no exponent marker. -/
theorem no_ee_of_signedIntOK {l : List Char} (h : signedIntOK l = true) :
    ∀ c ∈ l, isEe c = false := by
  intro c hc
  cases l with
  | nil => cases hc
  | cons d r =>
    rw [signedIntOK] at h
    by_cases hs : d = '+' || d = '-'
    · rw [if_pos hs] at h
      rcases List.mem_cons.mp hc with rfl | hr
      · rcases (by simpa using hs : c = '+' ∨ c = '-') with rfl | rfl <;> decide
      · exact no_ee_of_digitsNonempty h c hr
    · rw [if_neg hs] at h
      exact no_ee_of_digitsNonempty h c hc

/-- `splitAtFirstDot` recovers the original string. -/
theorem splitAtFirstDot_eq_append {l a b : List Char}
    (h : splitAtFirstDot l = some (a, b)) : l = a ++ '.' :: b := by
  induction l generalizing a b with
  | nil => simp [splitAtFirstDot] at h
  | cons c rest ih =>
    rw [splitAtFirstDot] at h
    by_cases hc : c = '.'
    · rw [if_pos hc, Option.some.injEq] at h
      cases h
      rw [hc]
      rfl
    · rw [if_neg hc] at h
      cases hsp : splitAtFirstDot rest with
      | none => rw [hsp] at h; simp at h
      | some p =>
        rw [hsp] at h
        have hr : rest = p.1 ++ '.' :: p.2 := ih (by rw [hsp])
        simp only [Option.map, Option.some.injEq] at h
        cases h
        rw [List.cons_append, ← hr]

/-- A string with no exponent marker is not split by `splitAtFirstEe`. -/
theorem splitAtFirstEe_eq_none {l : List Char} (h : ∀ c ∈ l, isEe c = false) :
    splitAtFirstEe l = none := by
  induction l with
  | nil => rfl
  | cons c rest ih =>
    rw [splitAtFirstEe, if_neg (by simp [h c (List.mem_cons_self c rest)]),
      ih (fun d hd => h d (List.mem_cons_of_mem c hd))]
    rfl

/-- Appending an exponent part after a marker-free mantissa splits exactly at
the marker. -/
theorem splitAtFirstEe_append {m sd : List Char} (mk : Char)
    (hm : ∀ c ∈ m, isEe c = false) (hmk : isEe mk = true) :
    splitAtFirstEe (m ++ mk :: sd) = some (m, sd) := by
  induction m with
  | nil => simp [splitAtFirstEe, hmk]
  | cons c rest ih =>
    rw [List.cons_append, splitAtFirstEe,
      if_neg (by simp [hm c (List.mem_cons_self c rest)]),
      ih (fun d hd => hm d (List.mem_cons_of_mem c hd))]
    rfl

/-- A fractional mantissa contains no exponent marker. -/
theorem no_ee_of_fracOK {l : List Char} (h : fracOK l = true) :
    ∀ c ∈ l, isEe c = false := by
  intro c hc
  rw [fracOK] at h
  cases hsp : splitAtFirstDot l with
  | none => rw [hsp] at h; simp at h
  | some p =>
    rw [hsp] at h
    obtain ⟨ha, hb⟩ := Bool.and_eq_true _ _ |>.mp h
    have hl : l = p.1 ++ '.' :: p.2 :=
      splitAtFirstDot_eq_append (by rw [hsp])
    subst hl
    rcases List.mem_append.mp hc with hma | hmb
    · exact isEe_eq_false_of_isDigit (List.all_eq_true.mp ha c hma)
    · rcases List.mem_cons.mp hmb with rfl | hmb
      · decide
      · exact no_ee_of_digitsNonempty hb c hmb

/-- Any source-shaped mantissa contains no exponent marker. -/
theorem no_ee_of_mantissaOK {l : List Char} (h : mantissaOK l = true) :
    ∀ c ∈ l, isEe c = false := by
  rcases Bool.or_eq_true _ _ |>.mp h with h1 | h2
  · exact no_ee_of_signedIntOK h1
  · exact no_ee_of_fracOK h2

/-- Completeness of the embedded length matcher: any concatenation of a
source-shaped mantissa, an optional exponent part, and a case-insensitive
allowed unit passes `regexCssLengthWithUnits`. -/
theorem regexLength_complete (m x u : List Char)
    (hm : mantissaOK m = true)
    (hx : x = [] ∨ ∃ mk sd, x = mk :: sd ∧ isEe mk = true ∧
        signedIntOK sd = true)
    (hu : lowerAll u ∈ unitsList) :
    regexCssLengthWithUnits (m ++ x ++ u) = true := by
  rw [regexCssLengthWithUnits, List.any_eq_true]
  refine ⟨lowerAll u, hu, ?_⟩
  have hul : (lowerAll u).length = u.length := by simp [lowerAll]
  have hsl : (m ++ x ++ u).length = (m ++ x).length + u.length := by
    simp [List.length_append]
    omega
  have hidx : (m ++ x ++ u).length - (lowerAll u).length = (m ++ x).length := by
    rw [hul, hsl]; omega
  have hdrop : (lowerAll (m ++ x ++ u)).drop ((m ++ x ++ u).length
      - (lowerAll u).length) = lowerAll u := by
    rw [hidx]
    have : lowerAll (m ++ x ++ u) = lowerAll (m ++ x) ++ lowerAll u := by
      simp [lowerAll]
    rw [this]
    have hlen : (m ++ x).length = (lowerAll (m ++ x)).length := by
      simp [lowerAll]
    rw [hlen, List.drop_left]
  have htake : (m ++ x ++ u).take ((m ++ x ++ u).length
      - (lowerAll u).length) = m ++ x := by
    rw [hidx]
    have : (m ++ x).length = (m ++ x).length := rfl
    exact List.take_left (m ++ x) u
  have hnum : numberOK (m ++ x) = true := by
    rcases hx with rfl | ⟨mk, sd, rfl, hmk, hsd⟩
    · rw [List.append_nil, numberOK,
        splitAtFirstEe_eq_none (no_ee_of_mantissaOK hm)]
      exact hm
    · rw [numberOK, splitAtFirstEe_append mk (no_ee_of_mantissaOK hm) hmk]
      simp [hm, hsd]
  simp only [Bool.and_eq_true, decide_eq_true_eq, beq_iff_eq]
  refine ⟨⟨?_, hdrop⟩, by rw [htake]; exact hnum⟩
  rw [hul, hsl]; omega

/-- Claim C4 (amended): every token built from a source-shaped numeric literal
- an optionally signed integer mantissa, or an unsigned mantissa with a
fractional part - followed by an optional exponent and one of the 14
case-insensitive units, whose parsed numeric value is non-negative, is
accepted by `isValidNonNegativeSourceSizeValue` of both versions (a sign
combined with a fractional part is rejected, as the counterexample shows). -/
theorem C4_amended_length_tokens_accepted (m x u : List Char)
    (hm : mantissaOK m = true)
    (hx : x = [] ∨ ∃ mk sd, x = mk :: sd ∧ isEe mk = true ∧
        signedIntOK sd = true)
    (hu : lowerAll u ∈ unitsList)
    (hnn : floatNonNeg (m ++ x ++ u) = true) :
    V1.isValidNonNegativeSourceSizeValue (m ++ x ++ u) = true ∧
    V2.isValidNonNegativeSourceSizeValue (m ++ x ++ u) = true := by
  have hr := regexLength_complete m x u hm hx hu
  constructor
  · rw [V1.isValidNonNegativeSourceSizeValue, hr, hnn]
    rfl
  · rw [V2.isValidNonNegativeSourceSizeValue, hr, hnn]
    rfl

/-- Claim C4 witness: the concrete token `"0e5Px"` decomposes as mantissa
`"0"`, exponent `"e5"`, unit `"Px"` and is accepted by both validators. -/
theorem C4_witness :
    mantissaOK "0".data = true ∧
    ("e5".data = 'e' :: "5".data ∧ isEe 'e' = true ∧
      signedIntOK "5".data = true) ∧
    lowerAll "Px".data ∈ unitsList ∧
    floatNonNeg ("0".data ++ "e5".data ++ "Px".data) = true ∧
    V1.isValidNonNegativeSourceSizeValue
      ("0".data ++ "e5".data ++ "Px".data) = true ∧
    V2.isValidNonNegativeSourceSizeValue
      ("0".data ++ "e5".data ++ "Px".data) = true :=
  ⟨by decide, ⟨by decide, by decide, by decide⟩, by decide, by decide,
   (C4_amended_length_tokens_accepted "0".data "e5".data "Px".data (by decide)
     (Or.inr ⟨'e', "5".data, by decide, by decide, by decide⟩)
     (by decide) (by decide)).1,
   (C4_amended_length_tokens_accepted "0".data "e5".data "Px".data (by decide)
     (Or.inr ⟨'e', "5".data, by decide, by decide, by decide⟩)
     (by decide) (by decide)).2⟩

/-! ## Comment handling of the V1 tokenizer (claim C5) -/

/-- Entering a comment: `/*` switches the scanner into comment mode without
touching any buffer. -/
theorem pcvLoop_comment_enter (rest : List Char) (prev : Option Char)
    (comp : List Char) (arr : List (List Char)) (lst : List (List (List Char)))
    (depth : Int) :
    V1.pcvLoop ('/' :: '*' :: rest) prev comp arr lst depth false
      = V1.pcvLoop rest (some '*') comp arr lst depth true := rfl

/-- Inside a comment, any character not starting the closing `*/` is
discarded. -/
theorem pcvLoop_inComment_step (c : Char) (rest : List Char)
    (prev : Option Char) (comp : List Char) (arr : List (List Char))
    (lst : List (List (List Char))) (depth : Int)
    (h : ¬(c = '*' ∧ rest.head? = some '/')) :
    V1.pcvLoop (c :: rest) prev comp arr lst depth true
      = V1.pcvLoop rest (some c) comp arr lst depth true := by
  rw [V1.pcvLoop.eq_def]
  split
  · rename_i heq; cases heq
  · rename_i heq
    injection heq with h1 h2
    exact absurd ⟨h1, by rw [h2]; rfl⟩ h
  · rename_i heq
    injection heq with h1 h2
    subst h1; subst h2; rfl
  all_goals simp_all

/-- A comment body free of `*/` is consumed up to its closing `*/`; the close
flushes the pending component, exactly like a whitespace boundary. -/
theorem pcvLoop_comment_close (body : List Char) :
    ∀ (rest : List Char) (prev : Option Char) (comp : List Char)
      (arr : List (List Char)) (lst : List (List (List Char))) (depth : Int),
    noCommentClose body = true →
    V1.pcvLoop (body ++ '*' :: '/' :: rest) prev comp arr lst depth true
      = V1.pcvLoop rest (some '/') [] (V1.pushComp comp arr) lst depth false := by
  induction body with
  | nil => intro rest prev comp arr lst depth _; rfl
  | cons c body' ih =>
    intro rest prev comp arr lst depth h
    obtain ⟨h1, h2⟩ := Bool.and_eq_true _ _ |>.mp h
    have hguard : ¬(c = '*' ∧ (body' ++ '*' :: '/' :: rest).head? = some '/') := by
      rintro ⟨rfl, hhd⟩
      cases body' with
      | nil => simp at hhd
      | cons d body'' =>
        simp only [List.cons_append, List.head?_cons, Option.some.injEq] at hhd
        subst hhd
        simp at h1
    rw [List.cons_append, pcvLoop_inComment_step c _ prev comp arr lst depth hguard,
      ih rest (some c) comp arr lst depth h2]

/-- An unterminated comment (body free of `*/`, no close before end of string)
absorbs all remaining input; the end of string then flushes the buffers. -/
theorem pcvLoop_comment_absorbs (body : List Char) :
    ∀ (prev : Option Char) (comp : List Char) (arr : List (List Char))
      (lst : List (List (List Char))) (depth : Int),
    noCommentClose body = true →
    V1.pcvLoop body prev comp arr lst depth true
      = V1.pushArr (V1.pushComp comp arr) lst := by
  induction body with
  | nil => intro prev comp arr lst depth _; rfl
  | cons c body' ih =>
    intro prev comp arr lst depth h
    obtain ⟨h1, h2⟩ := Bool.and_eq_true _ _ |>.mp h
    have hguard : ¬(c = '*' ∧ body'.head? = some '/') := by
      rintro ⟨rfl, hhd⟩
      rw [hhd] at h1
      simp at h1
    rw [pcvLoop_inComment_step c _ prev comp arr lst depth hguard,
      ih (some c) comp arr lst depth h2]

/-- Claim C5: comments are fully discarded by the V1 tokenizer - a `/* ... */`
whose interior has no `*/` is consumed without contributing any character,
its close acts as a token boundary (the pending component is flushed), an
unterminated comment absorbs all remaining input to end-of-string, and
consequently `parseSizes "/* */1px/* */"` returns `"1px"`. -/
theorem C5_comments_discarded :
    (∀ (body rest : List Char) (prev : Option Char) (comp : List Char)
        (arr : List (List Char)) (lst : List (List (List Char))) (depth : Int),
        noCommentClose body = true →
        V1.pcvLoop ('/' :: '*' :: (body ++ '*' :: '/' :: rest))
            prev comp arr lst depth false
          = V1.pcvLoop rest (some '/') [] (V1.pushComp comp arr)
              lst depth false) ∧
    (∀ (body : List Char) (prev : Option Char) (comp : List Char)
        (arr : List (List Char)) (lst : List (List (List Char))) (depth : Int),
        noCommentClose body = true →
        V1.pcvLoop ('/' :: '*' :: body) prev comp arr lst depth false
          = V1.pushArr (V1.pushComp comp arr) lst) ∧
    (∀ e, V1.parseSizes "/* */1px/* */" e = "1px") := by
  refine ⟨?_, ?_, fun _ => rfl⟩
  · intro body rest prev comp arr lst depth h
    rw [pcvLoop_comment_enter, pcvLoop_comment_close body rest (some '*')
      comp arr lst depth h]
  · intro body prev comp arr lst depth h
    rw [pcvLoop_comment_enter, pcvLoop_comment_absorbs body (some '*')
      comp arr lst depth h]

/-- Claim C5 witness: concrete instances - `"/*x*/,1px"` resumes scanning
after the comment, `"/*x"` is absorbed entirely, and the end-to-end example
returns `"1px"`. -/
theorem C5_witness :
    noCommentClose "x".data = true ∧
    V1.pcvLoop ('/' :: '*' :: ("x".data ++ '*' :: '/' :: ",1px".data))
        none "a".data [] [] 0 false
      = V1.pcvLoop ",1px".data (some '/') [] (V1.pushComp "a".data []) [] 0 false ∧
    V1.pcvLoop ('/' :: '*' :: "x".data) none "a".data [] [] 0 false
      = V1.pushArr (V1.pushComp "a".data []) [] ∧
    V1.parseSizes "/* */1px/* */" (fun _ => false) = "1px" :=
  ⟨by decide,
   C5_comments_discarded.1 "x".data ",1px".data none "a".data [] [] 0
     (by decide),
   C5_comments_discarded.2.1 "x".data none "a".data [] [] 0 (by decide),
   C5_comments_discarded.2.2 (fun _ => false)⟩

/-! ## Tokenizer invariants (claim C9) -/

/-- Conversion between the functional-induction guard shape and the
two-character lookahead guard. -/
theorem no_two_char {c a b : Char} {rest : List Char}
    (h : ∀ r, c = a → rest = b :: r → False) :
    ¬(c = a ∧ rest.head? = some b) := by
  rintro ⟨rfl, hh⟩
  cases rest with
  | nil => cases hh
  | cons d r =>
    simp only [List.head?_cons, Option.some.injEq] at hh
    exact h r rfl (by rw [hh])

/-- Single-character step of the scanner outside comments, assuming the
character does not start a comment opener. -/
theorem pcvLoop_nonComment_step (c : Char) (rest : List Char)
    (prev : Option Char) (comp : List Char) (arr : List (List Char))
    (lst : List (List (List Char))) (depth : Int)
    (h : ¬(c = '/' ∧ rest.head? = some '*')) :
    V1.pcvLoop (c :: rest) prev comp arr lst depth false
      = (if isSpace c then
          if (match prev with | some p => isSpace p | none => false)
              || comp.isEmpty then
            V1.pcvLoop rest (some c) comp arr lst depth false
          else if depth = 0 then
            V1.pcvLoop rest (some c) [] (V1.pushComp comp arr) lst depth false
          else V1.pcvLoop rest (some c) (comp ++ [' ']) arr lst depth false
        else if c = '(' then
          V1.pcvLoop rest (some c) (comp ++ [c]) arr lst (depth + 1) false
        else if c = ')' then
          V1.pcvLoop rest (some c) (comp ++ [c]) arr lst (depth - 1) false
        else if c = ',' then
          V1.pcvLoop rest (some c) [] []
            (V1.pushArr (V1.pushComp comp arr) lst) depth false
        else V1.pcvLoop rest (some c) (comp ++ [c]) arr lst depth false) := by
  rw [V1.pcvLoop.eq_def]
  split
  · rename_i heq; cases heq
  · rename_i hb heq; exact Bool.noConfusion hb
  · rename_i hb hx; exact Bool.noConfusion hb
  · rename_i heq
    injection heq with h1 h2
    exact absurd ⟨h1, by rw [h2]; rfl⟩ h
  · rename_i hx heq
    injection heq with h1 h2
    subst h1; subst h2; rfl

/-- `pushComp` preserves well-formedness of the component array. -/
theorem pushComp_good {comp : List Char} {arr : List (List Char)}
    (hc : comp = [] ∨ goodTokenB comp = true)
    (ha : ∀ t ∈ arr, goodTokenB t = true) :
    ∀ t ∈ V1.pushComp comp arr, goodTokenB t = true := by
  intro t ht
  rw [V1.pushComp] at ht
  by_cases hce : comp = []
  · rw [if_pos hce] at ht; exact ha t ht
  · rw [if_neg hce] at ht
    rcases List.mem_append.mp ht with h1 | h2
    · exact ha t h1
    · rw [List.mem_singleton.mp h2]
      exact hc.resolve_left hce

/-- `pushArr` preserves well-formedness of the group list. -/
theorem pushArr_good {arr : List (List Char)} {lst : List (List (List Char))}
    (ha : ∀ t ∈ arr, goodTokenB t = true)
    (hl : ∀ g ∈ lst, g ≠ [] ∧ ∀ t ∈ g, goodTokenB t = true) :
    ∀ g ∈ V1.pushArr arr lst, g ≠ [] ∧ ∀ t ∈ g, goodTokenB t = true := by
  intro g hg
  rw [V1.pushArr] at hg
  by_cases he : arr = []
  · rw [if_pos he] at hg; exact hl g hg
  · rw [if_neg he] at hg
    rcases List.mem_append.mp hg with h1 | h2
    · exact hl g h1
    · rw [List.mem_singleton.mp h2]; exact ⟨he, ha⟩

/-- Appending a character to a component keeps it well-formed, provided a
fresh component starts with a non-space character. -/
theorem goodTokenB_append (comp : List Char) (c : Char)
    (h : comp = [] ∨ goodTokenB comp = true)
    (hc : comp = [] → isSpace c = false) :
    goodTokenB (comp ++ [c]) = true := by
  cases comp with
  | nil => simp [goodTokenB, hc rfl]
  | cons d cs =>
    have hg := h.resolve_left (by simp)
    simpa only [List.cons_append, goodTokenB] using hg

/-- A well-formed token is non-empty and not whitespace-only. -/
theorem goodTokenB_props {t : List Char} (h : goodTokenB t = true) :
    t ≠ [] ∧ t.all isSpace = false := by
  cases t with
  | nil => simp [goodTokenB] at h
  | cons c cs =>
    have hcs : isSpace c = false := by simpa [goodTokenB] using h
    exact ⟨by simp, by simp [List.all_cons, hcs]⟩

/-- Invariant of the scanning loop: if the current component is empty or
well-formed, all accumulated tokens are well-formed and all emitted groups are
non-empty with well-formed tokens, then the same holds of every group in the
final output. -/
theorem pcvLoop_groups_good (input : List Char) (prev : Option Char)
    (comp : List Char) (arr : List (List Char)) (lst : List (List (List Char)))
    (depth : Int) (inC : Bool) :
    (comp = [] ∨ goodTokenB comp = true) →
    (∀ t ∈ arr, goodTokenB t = true) →
    (∀ g ∈ lst, g ≠ [] ∧ ∀ t ∈ g, goodTokenB t = true) →
    ∀ g ∈ V1.pcvLoop input prev comp arr lst depth inC,
      g ≠ [] ∧ ∀ t ∈ g, goodTokenB t = true := by
  induction input, prev, comp, arr, lst, depth, inC using V1.pcvLoop.induct with
  | case1 prev comp arr lst depth inC =>
    intro hc ha hl
    have hstep : V1.pcvLoop [] prev comp arr lst depth inC
        = V1.pushArr (V1.pushComp comp arr) lst := by cases inC <;> rfl
    rw [hstep]
    exact pushArr_good (pushComp_good hc ha) hl
  | case2 prev comp arr lst depth rest ih =>
    intro hc ha hl
    exact ih (Or.inl rfl) (pushComp_good hc ha) hl
  | case3 prev comp arr lst depth c rest hg ih =>
    intro hc ha hl
    rw [pcvLoop_inComment_step c rest prev comp arr lst depth (no_two_char hg)]
    exact ih hc ha hl
  | case4 prev comp arr lst depth rest ih =>
    intro hc ha hl
    rw [pcvLoop_comment_enter]
    exact ih hc ha hl
  | case5 prev comp arr lst depth c rest hg hsp hpr ih =>
    intro hc ha hl
    rw [pcvLoop_nonComment_step c rest prev comp arr lst depth (no_two_char hg),
      if_pos hsp, if_pos hpr]
    exact ih hc ha hl
  | case6 prev comp arr lst c rest hg hsp hpr ih =>
    intro hc ha hl
    rw [pcvLoop_nonComment_step c rest prev comp arr lst 0 (no_two_char hg),
      if_pos hsp, if_neg hpr, if_pos rfl]
    exact ih (Or.inl rfl) (pushComp_good hc ha) hl
  | case7 prev comp arr lst depth c rest hg hsp hpr hd ih =>
    intro hc ha hl
    rw [pcvLoop_nonComment_step c rest prev comp arr lst depth (no_two_char hg),
      if_pos hsp, if_neg hpr, if_neg hd]
    refine ih (Or.inr (goodTokenB_append comp ' ' hc ?_)) ha hl
    intro hce
    rw [hce] at hpr
    simp at hpr
  | case8 prev comp arr lst depth rest hg hsp ih =>
    intro hc ha hl
    rw [pcvLoop_nonComment_step '(' rest prev comp arr lst depth
      (no_two_char hg), if_neg hsp, if_pos rfl]
    exact ih (Or.inr (goodTokenB_append comp '(' hc (fun _ => by decide))) ha hl
  | case9 prev comp arr lst depth rest hg hsp hop ih =>
    intro hc ha hl
    rw [pcvLoop_nonComment_step ')' rest prev comp arr lst depth
      (no_two_char hg), if_neg hsp, if_neg hop, if_pos rfl]
    exact ih (Or.inr (goodTokenB_append comp ')' hc (fun _ => by decide))) ha hl
  | case10 prev comp arr lst depth rest hg hsp hop hcl ih =>
    intro hc ha hl
    rw [pcvLoop_nonComment_step ',' rest prev comp arr lst depth
      (no_two_char hg), if_neg hsp, if_neg hop, if_neg hcl, if_pos rfl]
    exact ih (Or.inl rfl) (fun t ht => absurd ht (List.not_mem_nil t))
      (pushArr_good (pushComp_good hc ha) hl)
  | case11 prev comp arr lst depth c rest hg hsp hop hcl hcm ih =>
    intro hc ha hl
    rw [pcvLoop_nonComment_step c rest prev comp arr lst depth
      (no_two_char hg), if_neg hsp, if_neg hop, if_neg hcl, if_neg hcm]
    refine ih (Or.inr (goodTokenB_append comp c hc (fun _ => ?_))) ha hl
    exact Bool.not_eq_true _ ▸ (by simpa using hsp)

/-- `pushArr` only ever appends to the output list. -/
theorem pushArr_extends (arr : List (List Char))
    (lst : List (List (List Char))) :
    ∃ s, V1.pushArr arr lst = lst ++ s := by
  rw [V1.pushArr]
  by_cases h : arr = []
  · exact ⟨[], by rw [if_pos h, List.append_nil]⟩
  · exact ⟨[arr], by rw [if_neg h]⟩

/-- The scanning loop only ever appends groups to the output list: emitted
groups stay, in emission order. -/
theorem pcvLoop_extends (input : List Char) (prev : Option Char)
    (comp : List Char) (arr : List (List Char)) (lst : List (List (List Char)))
    (depth : Int) (inC : Bool) :
    ∃ suffix, V1.pcvLoop input prev comp arr lst depth inC = lst ++ suffix := by
  induction input, prev, comp, arr, lst, depth, inC using V1.pcvLoop.induct with
  | case1 prev comp arr lst depth inC =>
    have hstep : V1.pcvLoop [] prev comp arr lst depth inC
        = V1.pushArr (V1.pushComp comp arr) lst := by cases inC <;> rfl
    rw [hstep]
    exact pushArr_extends _ lst
  | case2 prev comp arr lst depth rest ih => exact ih
  | case3 prev comp arr lst depth c rest hg ih =>
    rw [pcvLoop_inComment_step c rest prev comp arr lst depth (no_two_char hg)]
    exact ih
  | case4 prev comp arr lst depth rest ih =>
    rw [pcvLoop_comment_enter]
    exact ih
  | case5 prev comp arr lst depth c rest hg hsp hpr ih =>
    rw [pcvLoop_nonComment_step c rest prev comp arr lst depth (no_two_char hg),
      if_pos hsp, if_pos hpr]
    exact ih
  | case6 prev comp arr lst c rest hg hsp hpr ih =>
    rw [pcvLoop_nonComment_step c rest prev comp arr lst 0 (no_two_char hg),
      if_pos hsp, if_neg hpr, if_pos rfl]
    exact ih
  | case7 prev comp arr lst depth c rest hg hsp hpr hd ih =>
    rw [pcvLoop_nonComment_step c rest prev comp arr lst depth (no_two_char hg),
      if_pos hsp, if_neg hpr, if_neg hd]
    exact ih
  | case8 prev comp arr lst depth rest hg hsp ih =>
    rw [pcvLoop_nonComment_step '(' rest prev comp arr lst depth
      (no_two_char hg), if_neg hsp, if_pos rfl]
    exact ih
  | case9 prev comp arr lst depth rest hg hsp hop ih =>
    rw [pcvLoop_nonComment_step ')' rest prev comp arr lst depth
      (no_two_char hg), if_neg hsp, if_neg hop, if_pos rfl]
    exact ih
  | case10 prev comp arr lst depth rest hg hsp hop hcl ih =>
    rw [pcvLoop_nonComment_step ',' rest prev comp arr lst depth
      (no_two_char hg), if_neg hsp, if_neg hop, if_neg hcl, if_pos rfl]
    obtain ⟨s0, hs0⟩ := pushArr_extends (V1.pushComp comp arr) lst
    obtain ⟨suf, hsuf⟩ := ih
    exact ⟨s0 ++ suf, by rw [hsuf, hs0, List.append_assoc]⟩
  | case11 prev comp arr lst depth c rest hg hsp hop hcl hcm ih =>
    rw [pcvLoop_nonComment_step c rest prev comp arr lst depth
      (no_two_char hg), if_neg hsp, if_neg hop, if_neg hcl, if_neg hcm]
    exact ih

/-- Claim C9: the V1 tokenizer's output contains no empty group and no empty
or whitespace-only token; a comma at any paren depth flushes the current token
and group; and the output list is append-only (groups appear in emission
order, never reordered or removed). -/
theorem C9_tokenizer_invariants :
    (∀ (s : String), ∀ g ∈ V1.parseComponentValues s,
        g ≠ [] ∧ ∀ t ∈ g, t ≠ [] ∧ t.all isSpace = false) ∧
    (∀ (rest : List Char) (prev : Option Char) (comp : List Char)
        (arr : List (List Char)) (lst : List (List (List Char))) (depth : Int),
        V1.pcvLoop (',' :: rest) prev comp arr lst depth false
          = V1.pcvLoop rest (some ',') [] []
              (V1.pushArr (V1.pushComp comp arr) lst) depth false) ∧
    (∀ (input : List Char) (prev : Option Char) (comp : List Char)
        (arr : List (List Char)) (lst : List (List (List Char)))
        (depth : Int) (inC : Bool),
        ∃ suffix, V1.pcvLoop input prev comp arr lst depth inC
          = lst ++ suffix) := by
  refine ⟨?_, fun rest prev comp arr lst depth => rfl, pcvLoop_extends⟩
  intro s g hg
  have h := pcvLoop_groups_good s.data none [] [] [] 0 false (Or.inl rfl)
    (fun t ht => absurd ht (List.not_mem_nil t))
    (fun g' hg' => absurd hg' (List.not_mem_nil g')) g hg
  exact ⟨h.1, fun t ht => goodTokenB_props (h.2 t ht)⟩

/-- Claim C9 witness: concrete instances of the three invariants. -/
theorem C9_witness :
    (["1px".data] ≠ ([] : List (List Char)) ∧
      ∀ t ∈ [("1px".data : List Char)], t ≠ [] ∧ t.all isSpace = false) ∧
    V1.pcvLoop (',' :: "a".data) none "b".data [] [] 3 false
      = V1.pcvLoop "a".data (some ',') [] []
          (V1.pushArr (V1.pushComp "b".data []) []) 3 false ∧
    (∃ suffix, V1.pcvLoop "a,b".data none [] [] [["x".data]] 0 false
        = [["x".data]] ++ suffix) :=
  ⟨C9_tokenizer_invariants.1 "1px" ["1px".data] (by decide),
   C9_tokenizer_invariants.2.1 "a".data none "b".data [] [] 3,
   C9_tokenizer_invariants.2.2 "a,b".data none [] [] [["x".data]] 0 false⟩
